import Mathlib

/-!
Verification of the nats transport (`transport/nats/nats.go`).

The Go file builds a connection-oriented request/reply transport on top of
the NATS publish/subscribe bus.  This development gives a shallow embedding
of its data model and operations:

* `Msg` models `nats.Msg` (subject, reply-to subject, payload bytes).
* `TMessage` models `transport.Message` (the application envelope).
* `SocketState` models `ntportSocket`: the capacity-1 hand-off channel `r`
  (with a flag recording whether that channel has ever been closed), the
  backlog slice `bl`, and the one-shot close state (`sync.Once` guarding
  `close(n.close)`).
* `ListenerState` models `ntportListener`: the listen subject and the
  registry map `so : map[string]*ntportSocket`, embedded as an association
  list.
* The accept-loop body, `Recv`/`Send`/`Close` on sockets, the client
  publish/receive pair, `Listen`, and `NewTransport` address normalisation
  are translated function by function.

Payload marshalling (`json.Marshal`/`json.Unmarshal`) is external to the
repository and is treated as a codec parameter `enc`/`dec`; a small concrete
executable codec `demoEnc`/`demoDec` instantiates it for witnesses.
Blocking channel operations are embedded as explicit outcomes: a receive
from an empty open channel is the outcome `blocked`, a receive from a
closed empty channel is `eof` (the `io.EOF` branch of `Recv`).
-/

set_option autoImplicit false

namespace NatsTransport

/-- The as-delivered bus frame, modelling `nats.Msg`: subject, reply-to
subject (`Reply`, possibly empty) and payload bytes (`Data`). -/
structure Msg where
  subject : String
  reply : String
  data : List Nat
  deriving DecidableEq, Repr

/-- The application envelope, modelling `transport.Message`
(`Header map[string]string`, `Body []byte`). -/
structure TMessage where
  header : List (String × String)
  body : List Nat
  deriving DecidableEq, Repr

/-- The server-side socket state, modelling `ntportSocket`:
`r` is the buffered value of the capacity-1 hand-off channel `r chan *nats.Msg`
(`none` = empty), `rClosed` records whether that channel has been closed
(no line of the Go file ever closes it), `bl` is the backlog slice, `closed`
records whether `close(n.close)` has run (guarded by `sync.Once`), and `m`
is the seed frame whose `Reply` field addresses the peer. -/
@[ext]
structure SocketState where
  m : Msg
  r : Option Msg
  rClosed : Bool
  bl : List Msg
  closed : Bool
  deriving DecidableEq, Repr

/-- Socket construction in the accept loop: fresh empty capacity-1 channel
`r`, fresh open `close` channel, empty backlog, seeded with the first
frame `m`. -/
def mkSocket (m : Msg) : SocketState :=
  { m := m, r := none, rClosed := false, bl := [], closed := false }

/-- The non-blocking promotion step shared by `Recv` and the accept loop:
`if len(bl) > 0 { select { case r <- bl[0]: bl = bl[1:]; default: } }`.
The `select` send succeeds exactly when the capacity-1 channel is empty. -/
def promote (st : SocketState) : SocketState :=
  match st.bl with
  | [] => st
  | b :: rest =>
    match st.r with
    | none => { st with r := some b, bl := rest }
    | some _ => st

/-- The accept-loop enqueue for a socket:
`sock.bl = append(sock.bl, m)` followed by the non-blocking promotion. -/
def enqueue (st : SocketState) (m : Msg) : SocketState :=
  promote { st with bl := st.bl ++ [m] }

/-- The frame-consuming part of `ntportSocket.Recv`: `r, ok := <-n.r`.
`none` means the channel receive does not fire (channel empty): the caller
blocks if the channel is open, or takes the `ok == false` (`io.EOF`) branch
if the channel has been closed.  On success the held frame is returned and
the backlog head is promoted into the now-empty slot. -/
def recvFrame (st : SocketState) : Option (Msg × SocketState) :=
  match st.r with
  | some f => some (f, promote { st with r := none })
  | none => none

/-- Possible results of one call to `ntportSocket.Recv`. -/
inductive RecvOutcome where
  /-- The guard `if m == nil { return errors.New("message passed in is nil") }`. -/
  | nilMsg
  /-- `r, ok := <-n.r` with `ok == false`: `return io.EOF`. -/
  | eof
  /-- `<-n.r` on an empty open channel: the goroutine parks and the call
  does not return. -/
  | blocked
  /-- `json.Unmarshal(r.Data, &m)` failed: the error is returned, the
  socket stays open. -/
  | decodeErr
  /-- A frame was received and decoded into the caller's message. -/
  | ok (m : TMessage)
  deriving DecidableEq, Repr

/-- `ntportSocket.Recv`, parametrised by the external decoder `dec`
(`json.Unmarshal`) and by whether the caller passed a nil message pointer.
Returns the outcome together with the socket state after the call (for the
`blocked` outcome, the state at the moment the goroutine parks). -/
def ntportSocket.Recv (dec : List Nat → Option TMessage) (mNil : Bool)
    (st : SocketState) : RecvOutcome × SocketState :=
  if mNil then (.nilMsg, st)
  else
    match recvFrame st with
    | some (f, st') =>
      match dec f.data with
      | some mr => (.ok mr, st')
      | none => (.decodeErr, st')
    | none =>
      if st.rClosed then (.eof, st) else (.blocked, st)

/-- `ntportSocket.Send`, parametrised by the external encoder `enc`
(`json.Marshal`): publishes the encoded message to the stored frame's
reply subject, `n.conn.Publish(n.m.Reply, b)`.  The resulting bus frame is
returned; a plain `Publish` carries no reply-to subject. -/
def ntportSocket.Send (enc : TMessage → List Nat) (st : SocketState)
    (msg : TMessage) : Msg :=
  { subject := st.m.reply, reply := "", data := enc msg }

/-- `ntportSocket.Close`: `n.once.Do(func() { close(n.close) }); return nil`.
Returns the new state, whether the once-guarded body ran this call, and the
returned error (always `nil`, embedded as `none`). -/
def ntportSocket.Close (st : SocketState) : SocketState × Bool × Option String :=
  if st.closed then (st, false, none)
  else ({ st with closed := true }, true, none)

/-- Iterated `Close`: the state after `n` consecutive calls, the number of
calls in which the once-guarded close action actually ran, and the list of
errors the calls returned. -/
def closeIter : Nat → SocketState → SocketState × Nat × List (Option String)
  | 0, st => (st, 0, [])
  | n + 1, st =>
    match ntportSocket.Close st with
    | (st', ran, e) =>
      let (st'', c, es) := closeIter n st'
      (st'', (if ran then 1 else 0) + c, e :: es)

/-- One step of the socket's sequential history, used to describe the states
reachable from a fresh socket: a `Close` call, a frame delivered by the
accept loop, or a completed `Recv` (taking the held frame). -/
inductive SockOp where
  | close
  | deliver (m : Msg)
  | recvStep
  deriving DecidableEq, Repr

/-- The close-check-and-enqueue section of the accept loop applied to one
socket: `select { case <-sock.close: continue; default: }` followed by the
backlog append and promotion.  `none` means the frame was dropped because
the socket was already closed. -/
def demuxDeliver (sock : SocketState) (m : Msg) : Option SocketState :=
  if sock.closed then none else some (enqueue sock m)

/-- Apply one history step to a socket state. -/
def applyOp (st : SocketState) : SockOp → SocketState
  | .close => (ntportSocket.Close st).1
  | .deliver m =>
    match demuxDeliver st m with
    | some st' => st'
    | none => st
  | .recvStep =>
    match recvFrame st with
    | some (_, st') => st'
    | none => st

/-- Apply a whole history to a socket state. -/
def applyOps (st : SocketState) (ops : List SockOp) : SocketState :=
  ops.foldl applyOp st

/-- Registry lookup, `sock, ok := n.so[m.Reply]` on the embedded
association list. -/
def soLookup : List (String × SocketState) → String → Option SocketState
  | [], _ => none
  | (k, v) :: rest, key => if k = key then some v else soLookup rest key

/-- Registry update, `n.so[key] = sock`: replaces the binding if the key is
present, otherwise adds it. -/
def soInsert : List (String × SocketState) → String → SocketState →
    List (String × SocketState)
  | [], key, sock => [(key, sock)]
  | (k, v) :: rest, key, sock =>
    if k = key then (key, sock) :: rest else (k, v) :: soInsert rest key sock

/-- Registry deletion, `delete(n.so, key)`. -/
def soErase : List (String × SocketState) → String → List (String × SocketState)
  | [], _ => []
  | (k, v) :: rest, key =>
    if k = key then rest else (k, v) :: soErase rest key

/-- The listener state, modelling `ntportListener`: the listen subject
`addr` and the registry `so`. -/
structure ListenerState where
  addr : String
  so : List (String × SocketState)
  deriving DecidableEq, Repr

/-- What the accept-loop body did with one inbound frame. -/
inductive DemuxResult where
  /-- No registry entry for the frame's reply subject: a new socket was
  built, registered, its handler and close-watcher started, and the frame
  enqueued. -/
  | created
  /-- An entry existed but its socket was already closed: the frame was
  silently dropped (`continue`). -/
  | dropped
  /-- An entry existed and was open: the frame was enqueued. -/
  | enqueued
  deriving DecidableEq, Repr

/-- The body of the accept loop for one inbound frame `m` (after a
successful `NextMsg`): look up `n.so[m.Reply]`, create and register a new
socket when absent, then run the close-check and enqueue on the socket.
Go sockets are shared by pointer, so a mutation of the socket is reflected
in the registry; the embedding writes the final socket state back. -/
def acceptStep (ls : ListenerState) (m : Msg) : ListenerState × DemuxResult :=
  match soLookup ls.so m.reply with
  | none =>
    let sock := mkSocket m
    match demuxDeliver sock m with
    | some sock' => ({ ls with so := soInsert ls.so m.reply sock' }, .created)
    | none => ({ ls with so := soInsert ls.so m.reply sock }, .created)
  | some sock =>
    match demuxDeliver sock m with
    | some sock' => ({ ls with so := soInsert ls.so m.reply sock' }, .enqueued)
    | none => (ls, .dropped)

/-- The per-socket cleanup goroutine started when the socket is created:
`<-sock.close; n.Lock(); delete(n.so, sock.m.Reply); n.Unlock()`.
It runs once the socket's close channel has been closed. -/
def closeCleanup (ls : ListenerState) (sock : SocketState) : ListenerState :=
  { ls with so := soErase ls.so sock.m.reply }

/-- The errors `s.NextMsg(time.Minute)` can return: the timeout sentinel
`nats.ErrTimeout` or some other receive error. -/
inductive NatsError where
  | timeout
  | other (e : String)
  deriving DecidableEq, Repr

/-- What the accept loop does with one poll result. -/
inductive AcceptAction where
  /-- `continue`: re-poll the subscription. -/
  | repoll
  /-- `return err`: the accept loop terminates with this error. -/
  | terminate (e : NatsError)
  /-- Fall through to the demultiplexing body with this frame. -/
  | handle (m : Msg)
  deriving DecidableEq, Repr

/-- The error triage at the head of the accept loop, applied to the result
of one `s.NextMsg(time.Minute)` poll:
`if err != nil && err == nats.ErrTimeout { continue } else if err != nil
{ return err }`. -/
def acceptHandlePoll : Except NatsError Msg → AcceptAction
  | .error e => if e = NatsError.timeout then .repoll else .terminate e
  | .ok m => .handle m

/-- `ntportListener.Addr`: `return n.addr`. -/
def ntportListener.Addr (ls : ListenerState) : String :=
  ls.addr

/-- The subject `Accept` subscribes to: `n.conn.SubscribeSync(n.addr)`. -/
def acceptSubscribeSubject (ls : ListenerState) : String :=
  ls.addr

/-- `ntport.Listen`: connects, then builds the listener with
`addr: nats.NewInbox()` — the caller-supplied `addr` argument is never
used for the subject.  The bus-generated inbox is the external input
`inbox`; the registry starts empty. -/
def ntportListen (requestedAddr : String) (inbox : String) : ListenerState :=
  let _ := requestedAddr
  { addr := inbox, so := [] }

/-- The client state, modelling `ntportClient`: the dialled server address
and the private reply inbox `id` the client subscribed to. -/
structure ClientState where
  addr : String
  id : String
  deriving DecidableEq, Repr

/-- `ntport.Dial`: connects, allocates `id := nats.NewInbox()` and
subscribes to it.  The bus-generated inbox is the external input. -/
def ntportDial (serverAddr : String) (inbox : String) : ClientState :=
  { addr := serverAddr, id := inbox }

/-- `ntportClient.Send`: `b, _ := json.Marshal(m);
n.conn.PublishRequest(n.addr, n.id, b)` — the published frame carries the
client's private inbox as reply-to subject. -/
def ntportClient.Send (enc : TMessage → List Nat) (c : ClientState)
    (msg : TMessage) : Msg :=
  { subject := c.addr, reply := c.id, data := enc msg }

/-- `ntportClient.Recv` applied to the frame its private subscription
delivered: `json.Unmarshal(rsp.Data, &mr); *m = *mr`.  `none` embeds the
error return (decode failure). -/
def ntportClient.Recv (dec : List Nat → Option TMessage) (frame : Msg) :
    Option TMessage :=
  dec frame.data

/-- The server handler of the round-trip scenario: `Recv` the request,
`Send` the reply, `Close`.  Returns the decoded request (when `Recv`
succeeded), the published reply frame, and the final socket state. -/
def serverHandle (enc : TMessage → List Nat) (dec : List Nat → Option TMessage)
    (sock : SocketState) (reply : TMessage) :
    Option TMessage × Msg × SocketState :=
  let (out, st') := ntportSocket.Recv dec false sock
  let got : Option TMessage :=
    match out with
    | .ok mr => some mr
    | _ => none
  let replyFrame := ntportSocket.Send enc st' reply
  (got, replyFrame, (ntportSocket.Close st').1)

/-- The full round trip over a lossless bus: the client publishes the
request to the server's listen subject, the accept loop demultiplexes the
frame into a fresh socket, the handler receives the request and publishes a
reply to the frame's reply-to subject, and the client receives that reply
on its private subscription.  Returns (message the server decoded, message
the client decoded). -/
def roundTrip (enc : TMessage → List Nat) (dec : List Nat → Option TMessage)
    (serverAddr clientId : String) (req reply : TMessage) :
    Option TMessage × Option TMessage :=
  let c := ntportDial serverAddr clientId
  let reqFrame := ntportClient.Send enc c req
  let ls := ntportListen serverAddr serverAddr
  let (ls1, _) := acceptStep ls reqFrame
  match soLookup ls1.so reqFrame.reply with
  | some sock =>
    let (got, replyFrame, _) := serverHandle enc dec sock reply
    (got, ntportClient.Recv dec replyFrame)
  | none => (none, none)

/-- The normalisation loop of `NewTransport`: skip empty entries, prepend
`"nats://"` to entries lacking the prefix, keep prefixed entries. -/
def normalizeAddrs : List String → List String
  | [] => []
  | addr :: rest =>
    if addr.length = 0 then normalizeAddrs rest
    else if addr.startsWith "nats://" then addr :: normalizeAddrs rest
    else ("nats://" ++ addr) :: normalizeAddrs rest

/-- `nats.DefaultURL` of the bundled client library. -/
def natsDefaultURL : String :=
  "nats://localhost:4222"

/-- The address list stored by `NewTransport`: the normalised list, or the
single default endpoint when it is empty. -/
def newTransportAddrs (addrs : List String) : List String :=
  let cAddrs := normalizeAddrs addrs
  if cAddrs.isEmpty then [natsDefaultURL] else cAddrs

/-- The spec's reading of the normalisation, written from its words: every
blank entry is skipped, every remaining entry without the canonical scheme
prefix has `"nats://"` prepended, prefixed entries are kept unchanged, and
an empty result becomes the single well-known default endpoint. -/
def specNormalizedAddrs (addrs : List String) : List String :=
  let kept := (addrs.filter (fun a => a ≠ "")).map
    (fun a => if a.startsWith "nats://" then a else "nats://" ++ a)
  if kept = [] then [natsDefaultURL] else kept

/-- The combined frame contents of a socket in consumption order: the frame
held by the hand-off slot, then the backlog.  The spec calls this the
"single unbounded FIFO" formed by the backlog plus the hand-off slot. -/
def fifoContents (st : SocketState) : List Msg :=
  (match st.r with
   | some f => [f]
   | none => []) ++ st.bl

/-- Deliver a sequence of frames to a socket through the accept-loop
enqueue, in order. -/
def enqueueAll (st : SocketState) (ms : List Msg) : SocketState :=
  ms.foldl enqueue st

/-- Perform `n` consecutive frame-consuming `Recv` steps, collecting the
received frames in order; `none` when some step would block. -/
def recvFrames : Nat → SocketState → Option (List Msg × SocketState)
  | 0, st => some ([], st)
  | n + 1, st =>
    match recvFrame st with
    | some (f, st') =>
      match recvFrames n st' with
      | some (fs, st'') => some (f :: fs, st'')
      | none => none
    | none => none

/-- A concrete executable codec instantiating the external marshaller for
witnesses: encode a string as its length followed by its character codes. -/
def encStr (s : String) : List Nat :=
  s.length :: s.toList.map Char.toNat

/-- Decode one length-prefixed string, returning it with the remaining
bytes. -/
def decStr : List Nat → Option (String × List Nat)
  | [] => none
  | n :: rest =>
    if n ≤ rest.length then
      some (String.mk ((rest.take n).map Char.ofNat), rest.drop n)
    else none

/-- Decode a known number of key/value string pairs. -/
def decPairs : Nat → List Nat → Option (List (String × String) × List Nat)
  | 0, rest => some ([], rest)
  | n + 1, bytes => do
    let (k, r1) ← decStr bytes
    let (v, r2) ← decStr r1
    let (ps, r3) ← decPairs n r2
    pure ((k, v) :: ps, r3)

/-- Concrete message encoder: header-pair count, the encoded pairs, then
the body bytes. -/
def demoEnc (msg : TMessage) : List Nat :=
  msg.header.length ::
    (msg.header.map fun p => encStr p.1 ++ encStr p.2).flatten ++ msg.body

/-- Concrete message decoder, inverse of `demoEnc`. -/
def demoDec : List Nat → Option TMessage
  | [] => none
  | n :: rest => do
    let (ps, r1) ← decPairs n rest
    pure { header := ps, body := r1 }

/-! ### Socket FIFO lemmas -/

theorem promote_m (st : SocketState) : (promote st).m = st.m := by
  rcases st with ⟨m, r, rc, bl, c⟩
  cases bl <;> cases r <;> simp [promote]

theorem promote_rClosed (st : SocketState) :
    (promote st).rClosed = st.rClosed := by
  rcases st with ⟨m, r, rc, bl, c⟩
  cases bl <;> cases r <;> simp [promote]

theorem promote_closed (st : SocketState) :
    (promote st).closed = st.closed := by
  rcases st with ⟨m, r, rc, bl, c⟩
  cases bl <;> cases r <;> simp [promote]

theorem fifoContents_promote (st : SocketState) :
    fifoContents (promote st) = fifoContents st := by
  rcases st with ⟨m, r, rc, bl, c⟩
  cases bl <;> cases r <;> simp [promote, fifoContents]

theorem promote_handoff (st : SocketState) :
    (promote st).r = none → (promote st).bl = [] := by
  rcases st with ⟨m, r, rc, bl, c⟩
  cases bl <;> cases r <;> simp [promote]

theorem fifoContents_enqueue (st : SocketState) (m : Msg) :
    fifoContents (enqueue st m) = fifoContents st ++ [m] := by
  rcases st with ⟨mm, r, rc, bl, c⟩
  cases bl <;> cases r <;> simp [enqueue, promote, fifoContents]

theorem enqueue_m (st : SocketState) (m : Msg) : (enqueue st m).m = st.m :=
  promote_m _

theorem enqueue_rClosed (st : SocketState) (m : Msg) :
    (enqueue st m).rClosed = st.rClosed :=
  promote_rClosed _

theorem enqueue_closed (st : SocketState) (m : Msg) :
    (enqueue st m).closed = st.closed :=
  promote_closed _

theorem fifoContents_enqueueAll (ms : List Msg) :
    ∀ st : SocketState, fifoContents (enqueueAll st ms) = fifoContents st ++ ms := by
  induction ms with
  | nil => intro st; simp [enqueueAll]
  | cons m rest ih =>
    intro st
    have h : enqueueAll st (m :: rest) = enqueueAll (enqueue st m) rest := rfl
    rw [h, ih, fifoContents_enqueue, List.append_assoc]
    rfl

theorem enqueueAll_m (ms : List Msg) :
    ∀ st : SocketState, (enqueueAll st ms).m = st.m := by
  induction ms with
  | nil => intro st; rfl
  | cons m rest ih => intro st; rw [show enqueueAll st (m :: rest)
      = enqueueAll (enqueue st m) rest from rfl, ih, enqueue_m]

theorem enqueueAll_rClosed (ms : List Msg) :
    ∀ st : SocketState, (enqueueAll st ms).rClosed = st.rClosed := by
  induction ms with
  | nil => intro st; rfl
  | cons m rest ih => intro st; rw [show enqueueAll st (m :: rest)
      = enqueueAll (enqueue st m) rest from rfl, ih, enqueue_rClosed]

theorem enqueueAll_closed (ms : List Msg) :
    ∀ st : SocketState, (enqueueAll st ms).closed = st.closed := by
  induction ms with
  | nil => intro st; rfl
  | cons m rest ih => intro st; rw [show enqueueAll st (m :: rest)
      = enqueueAll (enqueue st m) rest from rfl, ih, enqueue_closed]

theorem enqueueAll_handoff (ms : List Msg) :
    ∀ st : SocketState, (st.r = none → st.bl = []) →
      ((enqueueAll st ms).r = none → (enqueueAll st ms).bl = []) := by
  induction ms with
  | nil => intro st h; exact h
  | cons m rest ih =>
    intro st _
    have h : enqueueAll st (m :: rest) = enqueueAll (enqueue st m) rest := rfl
    rw [h]
    exact ih (enqueue st m) (promote_handoff _)

theorem recvFrames_drain (l : List Msg) :
    ∀ st : SocketState, (st.r = none → st.bl = []) → fifoContents st = l →
      recvFrames l.length st = some (l, { st with r := none, bl := [] }) := by
  induction l with
  | nil =>
    intro st hinv hc
    rcases st with ⟨m, r, rc, bl, c⟩
    cases r with
    | some f => simp [fifoContents] at hc
    | none =>
      have hbl : bl = [] := hinv rfl
      subst hbl
      simp [recvFrames]
  | cons f rest ih =>
    intro st hinv hc
    rcases st with ⟨m, r, rc, bl, c⟩
    cases r with
    | none =>
      have hbl : bl = [] := hinv rfl
      subst hbl
      simp [fifoContents] at hc
    | some f0 =>
      simp only [fifoContents, List.singleton_append] at hc
      obtain ⟨hf, hbl⟩ := List.cons.inj hc
      subst hf
      subst hbl
      have hstep : recvFrame ⟨m, some f0, rc, bl, c⟩
          = some (f0, promote ⟨m, none, rc, bl, c⟩) := rfl
      have hrec := ih (promote ⟨m, none, rc, bl, c⟩) (promote_handoff _)
        (by rw [fifoContents_promote]; simp [fifoContents])
      have hfinal : ({ promote ⟨m, none, rc, bl, c⟩ with
          r := none, bl := [] } : SocketState)
          = ({ m := m, r := none, rClosed := rc, bl := [], closed := c } :
            SocketState) := by
        ext <;> simp [promote_m, promote_rClosed, promote_closed]
      rw [hfinal] at hrec
      simp only [recvFrames, hstep, hrec]

/-- C2: for every open socket and every sequence of frames demultiplexed to
it before any receive occurs, that many consecutive `Recv` calls yield
exactly those frames in delivery order, with no loss and no duplication:
the backlog plus the hand-off slot behave as one unbounded FIFO, and the
socket ends in its fresh state. -/
theorem fifo_delivery (seed : Msg) (ms : List Msg) :
    recvFrames ms.length (enqueueAll (mkSocket seed) ms)
      = some (ms, mkSocket seed) := by
  have hc : fifoContents (enqueueAll (mkSocket seed) ms) = ms := by
    rw [fifoContents_enqueueAll]
    simp [fifoContents, mkSocket]
  have hinv := enqueueAll_handoff ms (mkSocket seed) (fun _ => rfl)
  have h := recvFrames_drain ms _ hinv hc
  rw [h]
  have hfinal : ({ enqueueAll (mkSocket seed) ms with r := none, bl := [] } :
      SocketState) = mkSocket seed := by
    ext
    · rw [enqueueAll_m]
    · rfl
    · rw [enqueueAll_rClosed]
    · rfl
    · rw [enqueueAll_closed]
  rw [hfinal]

/-! ### Nil-guard, close and the missing end-of-stream signal -/

/-- C10: `Recv` called with a nil message pointer returns the
`"message passed in is nil"` error immediately, before any channel
operation, and leaves the socket state (hand-off slot, backlog, closed
flag) unchanged. -/
theorem recv_nil_guard (dec : List Nat → Option TMessage) (st : SocketState) :
    ntportSocket.Recv dec true st = (RecvOutcome.nilMsg, st) := by
  simp [ntportSocket.Recv]

theorem applyOp_rClosed (st : SocketState) (op : SockOp) :
    (applyOp st op).rClosed = st.rClosed := by
  cases op with
  | close =>
    simp only [applyOp, ntportSocket.Close]
    split <;> rfl
  | deliver m =>
    simp only [applyOp, demuxDeliver]
    by_cases hc : st.closed = true
    · simp [hc]
    · simp [hc, enqueue_rClosed]
  | recvStep =>
    rcases st with ⟨mm, r, rc, bl, c⟩
    cases r with
    | none => rfl
    | some f =>
      simp only [applyOp, recvFrame]
      exact promote_rClosed _

theorem applyOps_rClosed (ops : List SockOp) :
    ∀ st : SocketState, (applyOps st ops).rClosed = st.rClosed := by
  induction ops with
  | nil => intro st; rfl
  | cons op rest ih =>
    intro st
    have h : applyOps st (op :: rest) = applyOps (applyOp st op) rest := rfl
    rw [h, ih, applyOp_rClosed]

/-- C1 (refuted): on every socket state reachable from a fresh socket by
any sequence of `Close` calls, frame deliveries and receive steps, `Recv`
never returns `io.EOF`, and whenever the hand-off slot is empty — in
particular after a `Close` on an empty socket — `Recv` blocks and does not
return.  `Close` closes only the `close` channel, which `Recv` does not
watch; the channel `r` that `Recv` blocks on is never closed, so the
`io.EOF` branch is unreachable and a receiver parked on an empty socket is
not unblocked by `Close`. -/
theorem recv_ignores_close (dec : List Nat → Option TMessage) (seed : Msg)
    (ops : List SockOp) :
    (ntportSocket.Recv dec false (applyOps (mkSocket seed) ops)).1
        ≠ RecvOutcome.eof
    ∧ ((applyOps (mkSocket seed) ops).r = none →
        ntportSocket.Recv dec false (applyOps (mkSocket seed) ops)
          = (RecvOutcome.blocked, applyOps (mkSocket seed) ops)) := by
  have hrc : (applyOps (mkSocket seed) ops).rClosed = false := by
    rw [applyOps_rClosed]
    rfl
  constructor
  · rcases h : (applyOps (mkSocket seed) ops) with ⟨m, r, rc, bl, c⟩
    rw [h] at hrc
    simp only at hrc
    subst hrc
    cases r with
    | none =>
      simp [ntportSocket.Recv, recvFrame]
    | some f =>
      simp only [ntportSocket.Recv, recvFrame]
      cases dec f.data <;> simp
  · intro hr
    rcases h : (applyOps (mkSocket seed) ops) with ⟨m, r, rc, bl, c⟩
    rw [h] at hr hrc
    simp only at hr hrc
    subst hr
    subst hrc
    simp [ntportSocket.Recv, recvFrame]

/-- Witness for `recv_ignores_close` at a concrete closed socket: after a
single `Close` on a fresh socket the hand-off slot is empty, and `Recv`
blocks (it does not return `io.EOF`). -/
theorem recv_ignores_close_witness :
    (applyOps (mkSocket ⟨"", "", []⟩) [SockOp.close]).r = none
    ∧ ntportSocket.Recv (fun _ => none) false
        (applyOps (mkSocket ⟨"", "", []⟩) [SockOp.close])
      = (RecvOutcome.blocked, applyOps (mkSocket ⟨"", "", []⟩) [SockOp.close]) :=
  ⟨rfl, (recv_ignores_close (fun _ => none) ⟨"", "", []⟩ [SockOp.close]).2 rfl⟩

theorem closeIter_closed (n : Nat) :
    ∀ st : SocketState, st.closed = true →
      closeIter n st = (st, 0, List.replicate n none) := by
  induction n with
  | zero => intro st _; rfl
  | succ k ih =>
    intro st h
    have hcl : ntportSocket.Close st = (st, false, none) := by
      simp [ntportSocket.Close, h]
    simp [closeIter, hcl, ih st h, List.replicate]

/-- C3: `Close` is idempotent: over any number `n ≥ 1` of consecutive
`Close` calls on a fresh socket, the once-guarded close action
(`close(n.close)`) runs exactly once, every call returns `nil`, and the
socket ends closed.  The `sync.Once` guard is what prevents a second
`close` of the channel (which would panic). -/
theorem close_once (seed : Msg) (n : Nat) (h : 1 ≤ n) :
    (closeIter n (mkSocket seed)).2.1 = 1
    ∧ (closeIter n (mkSocket seed)).2.2 = List.replicate n none
    ∧ (closeIter n (mkSocket seed)).1.closed = true := by
  cases n with
  | zero => exact absurd h (by decide)
  | succ k =>
    have hcl : ntportSocket.Close (mkSocket seed)
        = ({ mkSocket seed with closed := true }, true, none) := rfl
    have hrest := closeIter_closed k { mkSocket seed with closed := true } rfl
    refine ⟨?_, ?_, ?_⟩ <;> simp [closeIter, hcl, hrest, List.replicate]

/-- Witness for `close_once`: three consecutive `Close` calls on a fresh
socket run the close action exactly once and all return `nil`. -/
theorem close_once_witness :
    1 ≤ 3
    ∧ ((closeIter 3 (mkSocket ⟨"", "", []⟩)).2.1 = 1
      ∧ (closeIter 3 (mkSocket ⟨"", "", []⟩)).2.2 = List.replicate 3 none
      ∧ (closeIter 3 (mkSocket ⟨"", "", []⟩)).1.closed = true) :=
  ⟨by decide, close_once ⟨"", "", []⟩ 3 (by decide)⟩

/-! ### Registry lemmas -/

theorem soLookup_eq_none (so : List (String × SocketState)) (key : String) :
    soLookup so key = none ↔ key ∉ so.map Prod.fst := by
  induction so with
  | nil => simp [soLookup]
  | cons p rest ih =>
    rcases p with ⟨k, v⟩
    by_cases h : k = key
    · subst h
      simp [soLookup]
    · simp [soLookup, h, ih, Ne.symm h]

theorem soLookup_soInsert (so : List (String × SocketState)) (key : String)
    (sock : SocketState) :
    soLookup (soInsert so key sock) key = some sock := by
  induction so with
  | nil => simp [soInsert, soLookup]
  | cons p rest ih =>
    rcases p with ⟨k, v⟩
    by_cases h : k = key
    · simp [soInsert, h, soLookup]
    · simp [soInsert, h, soLookup, ih]

theorem soInsert_keys_of_mem (so : List (String × SocketState)) (key : String)
    (sock : SocketState) (h : key ∈ so.map Prod.fst) :
    (soInsert so key sock).map Prod.fst = so.map Prod.fst := by
  induction so with
  | nil => simp at h
  | cons p rest ih =>
    rcases p with ⟨k, v⟩
    by_cases hk : k = key
    · simp [soInsert, hk]
    · simp only [List.map_cons, List.mem_cons] at h
      rcases h with h | h
      · exact absurd h.symm hk
      · simp [soInsert, hk, ih h]

theorem soInsert_keys_of_not_mem (so : List (String × SocketState))
    (key : String) (sock : SocketState) (h : key ∉ so.map Prod.fst) :
    (soInsert so key sock).map Prod.fst = so.map Prod.fst ++ [key] := by
  induction so with
  | nil => simp [soInsert]
  | cons p rest ih =>
    rcases p with ⟨k, v⟩
    simp only [List.map_cons, List.mem_cons] at h
    push_neg at h
    obtain ⟨h1, h2⟩ := h
    simp [soInsert, Ne.symm h1, ih h2]

theorem soErase_keys_sublist (so : List (String × SocketState)) (key : String) :
    ((soErase so key).map Prod.fst).Sublist (so.map Prod.fst) := by
  induction so with
  | nil => simp [soErase]
  | cons p rest ih =>
    rcases p with ⟨k, v⟩
    by_cases h : k = key
    · simp only [soErase, if_pos h, List.map_cons]
      exact List.Sublist.cons _ (List.Sublist.refl _)
    · simp only [soErase, if_neg h, List.map_cons]
      exact List.Sublist.cons₂ _ ih

theorem soLookup_soErase (so : List (String × SocketState)) (key : String)
    (h : (so.map Prod.fst).Nodup) :
    soLookup (soErase so key) key = none := by
  induction so with
  | nil => rfl
  | cons p rest ih =>
    rcases p with ⟨k, v⟩
    simp only [List.map_cons, List.nodup_cons] at h
    obtain ⟨hk, hrest⟩ := h
    by_cases hke : k = key
    · subst hke
      simp only [soErase, if_pos rfl]
      exact (soLookup_eq_none rest k).mpr hk
    · simp [soErase, hke, soLookup, ih hrest]

theorem soInsert_nodup (so : List (String × SocketState)) (key : String)
    (sock : SocketState) (h : (so.map Prod.fst).Nodup) :
    ((soInsert so key sock).map Prod.fst).Nodup := by
  by_cases hm : key ∈ so.map Prod.fst
  · rw [soInsert_keys_of_mem so key sock hm]
    exact h
  · rw [soInsert_keys_of_not_mem so key sock hm]
    rw [List.nodup_append]
    refine ⟨h, List.nodup_singleton key, ?_⟩
    intro a ha hb
    simp only [List.mem_singleton] at hb
    subst hb
    exact hm ha

theorem acceptStep_new (ls : ListenerState) (m : Msg)
    (h : soLookup ls.so m.reply = none) :
    acceptStep ls m
      = ({ ls with so := soInsert ls.so m.reply (enqueue (mkSocket m) m) },
          DemuxResult.created) := by
  unfold acceptStep
  rw [h]
  rfl

theorem acceptStep_open (ls : ListenerState) (m : Msg) (sock : SocketState)
    (h : soLookup ls.so m.reply = some sock) (hc : sock.closed = false) :
    acceptStep ls m
      = ({ ls with so := soInsert ls.so m.reply (enqueue sock m) },
          DemuxResult.enqueued) := by
  unfold acceptStep
  rw [h]
  simp [demuxDeliver, hc]

theorem acceptStep_closed (ls : ListenerState) (m : Msg) (sock : SocketState)
    (h : soLookup ls.so m.reply = some sock) (hc : sock.closed = true) :
    acceptStep ls m = (ls, DemuxResult.dropped) := by
  unfold acceptStep
  rw [h]
  simp [demuxDeliver, hc]

theorem acceptStep_nodup (ls : ListenerState) (m : Msg)
    (h : (ls.so.map Prod.fst).Nodup) :
    (((acceptStep ls m).1).so.map Prod.fst).Nodup := by
  cases hl : soLookup ls.so m.reply with
  | none =>
    rw [acceptStep_new ls m hl]
    exact soInsert_nodup _ _ _ h
  | some sock =>
    cases hc : sock.closed with
    | true =>
      rw [acceptStep_closed ls m sock hl hc]
      exact h
    | false =>
      rw [acceptStep_open ls m sock hl hc]
      exact soInsert_nodup _ _ _ h

/-- C4: a frame whose reply-to subject maps to an already-closed socket that
is still present in the registry is silently dropped: no socket is created,
nothing is enqueued, the listener state is unchanged, and no error is
produced. -/
theorem closed_socket_drops (ls : ListenerState) (m : Msg)
    (sock : SocketState) (hl : soLookup ls.so m.reply = some sock)
    (hc : sock.closed = true) :
    acceptStep ls m = (ls, DemuxResult.dropped) :=
  acceptStep_closed ls m sock hl hc

/-- Witness for `closed_socket_drops`: a registry holding one closed socket
under subject `"rep"` drops a further frame for `"rep"` unchanged. -/
theorem closed_socket_drops_witness :
    soLookup [("rep", (ntportSocket.Close (mkSocket ⟨"svc", "rep", []⟩)).1)]
        (Msg.mk "svc" "rep" []).reply
      = some (ntportSocket.Close (mkSocket ⟨"svc", "rep", []⟩)).1
    ∧ ((ntportSocket.Close (mkSocket ⟨"svc", "rep", []⟩)).1).closed = true
    ∧ acceptStep
        ⟨"lst", [("rep", (ntportSocket.Close (mkSocket ⟨"svc", "rep", []⟩)).1)]⟩
        ⟨"svc", "rep", []⟩
      = (⟨"lst", [("rep", (ntportSocket.Close (mkSocket ⟨"svc", "rep", []⟩)).1)]⟩,
          DemuxResult.dropped) :=
  ⟨by decide, by decide,
    closed_socket_drops
      ⟨"lst", [("rep", (ntportSocket.Close (mkSocket ⟨"svc", "rep", []⟩)).1)]⟩
      ⟨"svc", "rep", []⟩ (ntportSocket.Close (mkSocket ⟨"svc", "rep", []⟩)).1
      (by decide) (by decide)⟩

/-- C5: the registry keeps at most one socket per reply-to subject (key
uniqueness is preserved by the accept step and by close-triggered cleanup),
the cleanup deletes the entry outright (a later lookup finds nothing), and
after deletion the next frame bearing the subject registers a brand-new
socket seeded only with that frame. -/
theorem registry_unique_delete_reuse (ls : ListenerState) (m : Msg)
    (subj : String) (sock : SocketState)
    (h : (ls.so.map Prod.fst).Nodup) :
    (((acceptStep ls m).1).so.map Prod.fst).Nodup
    ∧ ((closeCleanup ls sock).so.map Prod.fst).Nodup
    ∧ soLookup (soErase ls.so subj) subj = none
    ∧ (soLookup ls.so m.reply = none →
        soLookup ((acceptStep ls m).1).so m.reply
          = some (enqueue (mkSocket m) m)) := by
  refine ⟨acceptStep_nodup ls m h, ?_, soLookup_soErase ls.so subj h, ?_⟩
  · exact (soErase_keys_sublist ls.so sock.m.reply).nodup h
  · intro hnone
    rw [acceptStep_new ls m hnone]
    exact soLookup_soInsert ls.so m.reply (enqueue (mkSocket m) m)

/-- Witness for `registry_unique_delete_reuse` on a concrete listener whose
registry held (and then cleaned up) subject `"k"`: the next frame for `"k"`
registers a brand-new socket. -/
theorem registry_unique_delete_reuse_witness :
    ((([("k", mkSocket ⟨"s", "k", [1]⟩)].map Prod.fst)).Nodup)
    ∧ soLookup (soErase [("k", mkSocket ⟨"s", "k", [1]⟩)] "k") "k" = none
    ∧ (soLookup ([] : List (String × SocketState)) (Msg.mk "s" "k" [1]).reply
        = none →
      soLookup ((acceptStep ⟨"lst", []⟩ ⟨"s", "k", [1]⟩).1).so
          (Msg.mk "s" "k" [1]).reply
        = some (enqueue (mkSocket ⟨"s", "k", [1]⟩) ⟨"s", "k", [1]⟩)) :=
  ⟨by decide,
    (registry_unique_delete_reuse ⟨"lst", [("k", mkSocket ⟨"s", "k", [1]⟩)]⟩
      ⟨"s", "k", [1]⟩ "k" (mkSocket ⟨"s", "k", [1]⟩) (by decide)).2.2.1,
    fun _ => (registry_unique_delete_reuse ⟨"lst", []⟩ ⟨"s", "k", [1]⟩ "k"
      (mkSocket ⟨"s", "k", [1]⟩) List.nodup_nil).2.2.2 rfl⟩

/-! ### Round trip, address normalisation, Listen, poll triage -/

/-- C6: over a lossless bus, `Client.Send(req)`, then the server handler's
`Recv`/`Send(reply)`/`Close`, then `Client.Recv` delivers to the server the
client's request and to the client a message equal by decoded value to the
reply the server sent, for every codec satisfying the decode-of-encode
round trip at the two transported messages. -/
theorem round_trip_correct (enc : TMessage → List Nat)
    (dec : List Nat → Option TMessage) (serverAddr clientId : String)
    (req reply : TMessage)
    (h1 : dec (enc req) = some req) (h2 : dec (enc reply) = some reply) :
    roundTrip enc dec serverAddr clientId req reply = (some req, some reply) := by
  simp [roundTrip, ntportDial, ntportClient.Send, ntportListen, acceptStep,
    soLookup, demuxDeliver, mkSocket, enqueue, promote, soInsert, serverHandle,
    ntportSocket.Recv, recvFrame, ntportSocket.Send, ntportClient.Recv, h1, h2]

/-- Witness for `round_trip_correct` with the concrete executable codec:
the client sends `{("a","b"); [1,2]}` and gets back the server's reply
`{∅; [7]}`. -/
theorem round_trip_correct_witness :
    demoDec (demoEnc ⟨[("a", "b")], [1, 2]⟩) = some ⟨[("a", "b")], [1, 2]⟩
    ∧ demoDec (demoEnc ⟨[], [7]⟩) = some ⟨[], [7]⟩
    ∧ roundTrip demoEnc demoDec "svc" "inbox" ⟨[("a", "b")], [1, 2]⟩ ⟨[], [7]⟩
        = (some ⟨[("a", "b")], [1, 2]⟩, some ⟨[], [7]⟩) :=
  ⟨by decide, by decide,
    round_trip_correct demoEnc demoDec "svc" "inbox" ⟨[("a", "b")], [1, 2]⟩
      ⟨[], [7]⟩ (by decide) (by decide)⟩

theorem string_length_eq_zero (s : String) : s.length = 0 ↔ s = "" := by
  constructor
  · intro h
    cases s with
    | mk data =>
      simp only [String.length] at h
      exact congrArg String.mk (List.length_eq_zero.mp h)
  · intro h
    subst h
    rfl

theorem normalizeAddrs_spec (addrs : List String) :
    normalizeAddrs addrs = (addrs.filter (fun a => a ≠ "")).map
      (fun a => if a.startsWith "nats://" then a else "nats://" ++ a) := by
  induction addrs with
  | nil => rfl
  | cons a rest ih =>
    by_cases h : a = ""
    · subst h
      simp [normalizeAddrs, ih]
    · have hlen : ¬a.length = 0 := fun hl => h ((string_length_eq_zero a).mp hl)
      by_cases hp : a.startsWith "nats://"
      · simp [normalizeAddrs, hlen, hp, ih, h]
      · simp [normalizeAddrs, hlen, hp, ih, h]

/-- C7: `NewTransport` stores the configured addresses with every empty
entry skipped, `"nats://"` prepended to every remaining entry lacking the
prefix, prefixed entries kept unchanged, and the single default endpoint
when the result is empty — exactly the spec's normalisation. -/
theorem newTransport_normalizes (addrs : List String) :
    newTransportAddrs addrs = specNormalizedAddrs addrs := by
  unfold newTransportAddrs specNormalizedAddrs
  rw [normalizeAddrs_spec]
  simp [List.isEmpty_iff]

/-- C8: `Listen` does not bind the caller-supplied address: the listener is
the same whatever address was requested, its subject is the bus-generated
inbox allocated in the call, `Addr()` returns that subject, and it is the
subject `Accept` subscribes to. -/
theorem listen_ignores_requested (a₁ a₂ inbox : String) :
    ntportListen a₁ inbox = ntportListen a₂ inbox
    ∧ ntportListener.Addr (ntportListen a₁ inbox) = inbox
    ∧ acceptSubscribeSubject (ntportListen a₁ inbox) = inbox :=
  ⟨rfl, rfl, rfl⟩

/-- C9: in the accept loop a poll timeout is never an error — the loop
re-polls — while every other receive error terminates the loop and is
returned; `Accept` reports a receive error exactly when the poll failed
with a non-timeout error. -/
theorem accept_poll_triage :
    acceptHandlePoll (Except.error NatsError.timeout) = AcceptAction.repoll
    ∧ (∀ e : NatsError, e ≠ NatsError.timeout →
        acceptHandlePoll (Except.error e) = AcceptAction.terminate e)
    ∧ (∀ (res : Except NatsError Msg) (e : NatsError),
        acceptHandlePoll res = AcceptAction.terminate e
          ↔ res = Except.error e ∧ e ≠ NatsError.timeout) := by
  refine ⟨rfl, ?_, ?_⟩
  · intro e he
    simp [acceptHandlePoll, he]
  · intro res e
    cases res with
    | ok m => simp [acceptHandlePoll]
    | error e' =>
      by_cases he' : e' = NatsError.timeout
      · subst he'
        rw [show acceptHandlePoll (Except.error NatsError.timeout)
          = AcceptAction.repoll from rfl]
        constructor
        · intro h
          simp at h
        · rintro ⟨h1, h2⟩
          injection h1 with h1
          exact absurd h1.symm h2
      · rw [show acceptHandlePoll (Except.error e')
          = if e' = NatsError.timeout then AcceptAction.repoll
            else AcceptAction.terminate e' from rfl, if_neg he']
        constructor
        · intro h
          injection h with h
          subst h
          exact ⟨rfl, he'⟩
        · rintro ⟨h1, h2⟩
          injection h1 with h1
          subst h1
          rfl

/-- Witness for `accept_poll_triage`: a non-timeout receive error
terminates the loop with that error. -/
theorem accept_poll_triage_witness :
    NatsError.other "boom" ≠ NatsError.timeout
    ∧ acceptHandlePoll (Except.error (NatsError.other "boom"))
        = AcceptAction.terminate (NatsError.other "boom") :=
  ⟨by decide, accept_poll_triage.2.1 (NatsError.other "boom") (by decide)⟩

end NatsTransport
